import Mathlib

/-!
# enmity-mod/altstore: the release webhook and the AltStore catalog

A shallow embedding of `main.go`, `github_types.go` and `altstore_types.go`.

* A Go `string` is a sequence of bytes: `len`, `==` and the slice expression
  `s[0:10]` all work on bytes.  Strings are therefore lists of byte values
  (`GoString`), and a "character" of a string is one element of that list.
* Go standard-library and third-party calls (`hmac`, `json`, `http`, `zip`,
  `plist`) are fields of `Env`; the repository's own code is translated
  line by line on top of them.
* A returned `error` is `Except.error`.  A run-time panic (slice out of
  range, failed type assertion) is `Result.panic`, or `none` for the one
  function that has no error result.
* The file named by `ALTSTORE_FILE` and the ghost trace of effects are the
  `World` threaded through the handler.
-/

namespace Altstore

/-! ## Strings and results -/

/-- Go strings and byte slices: sequences of byte values. -/
abbrev GoString := List Nat

/-- Bytes of a source literal (every literal of the repository is ASCII). -/
def str (s : String) : GoString := s.toList.map Char.toNat

/-- Outcome of a Go call that returns `(value, error)` and can also panic. -/
inductive Result (α : Type) where
  | ok (a : α)
  | err (msg : String)
  | panic
  deriving DecidableEq, Repr

deriving instance DecidableEq for Except

/-! ## github_types.go -/

/-- Go struct `header`; the field tag is `header:"x-hub-signature-256"`. -/
structure header where
  Signature : GoString
  deriving DecidableEq, Repr

/-- Go struct `asset`. -/
structure asset where
  DownloadUrl : GoString
  Name : GoString
  Size : Int
  deriving DecidableEq, Repr

/-- Go struct `release`. -/
structure release where
  Body : GoString
  CreatedAt : GoString
  Assets : List asset
  deriving DecidableEq, Repr

/-- Go struct `payload`. -/
structure payload where
  Action : GoString
  Release : release
  deriving DecidableEq, Repr

/-! ## altstore_types.go -/

/-- Go struct `app`. -/
structure app where
  Name : GoString
  BundleIdentifier : GoString
  DeveloperName : GoString
  Subtitle : GoString
  Version : GoString
  VersionDate : GoString
  VersionDescription : GoString
  DownloadUrl : GoString
  LocalizedDescription : GoString
  IconURL : GoString
  TintColor : GoString
  Size : Int
  Beta : Bool
  deriving DecidableEq, Repr

/-- Go struct `altstore`; `UserInfo` is the empty struct. -/
structure altstore where
  Name : GoString
  Identifier : GoString
  Apps : List app
  UserInfo : Unit
  deriving DecidableEq, Repr

/-! ## Library boundary -/

/-- What `http.Get` hands back: the URL of the last request after redirects
(`resp.Request.URL.String()`) and the body, `none` when reading it fails. -/
structure httpResponse where
  finalURL : GoString
  body : Option GoString
  deriving DecidableEq, Repr

/-- One `*zip.File` of an opened archive: its name and the bytes that
`Open` + `ReadAll` give, `none` when either of them returns an error. -/
structure zipFile where
  Name : GoString
  content : Option GoString
  deriving DecidableEq, Repr

/-- A decoded property-list value as seen by the type assertion `.(string)`:
either a Go `string` or a value of some other dynamic type. -/
inductive plistValue where
  | string (s : GoString)
  | other
  deriving DecidableEq, Repr

/-- The standard-library and third-party functions the program calls, and the
process environment it reads. -/
structure Env where
  /-- Value of `os.Getenv("WEBHOOK_SECRET")`. -/
  WEBHOOK_SECRET : GoString
  /-- The calls `hmac.New(sha256.New, key)`, `Write(msg)`, `Sum(nil)`: key, then message. -/
  hmacSHA256 : GoString → GoString → GoString
  /-- The call `json.Unmarshal(body, &payload)` on a zero `payload`; the error is
  dropped by the caller, so only the resulting struct matters. -/
  unmarshalPayload : GoString → payload
  /-- The call `http.Get(url)`; `none` is a returned error. -/
  httpGet : GoString → Option httpResponse
  /-- The call `zip.NewReader` over the bytes; `none` is a returned error,
  `some fs` is `zipReader.File`. -/
  zipNewReader : GoString → Option (List zipFile)
  /-- The call `plist.NewDecoder(r).Decode(&info)` into a map from strings to
  dynamic values; `none` is a returned error, `some m` the map (`m k = none`:
  key absent). -/
  plistDecode : GoString → Option (GoString → Option plistValue)
  /-- The call `json.Unmarshal(file, &altstore)` on a zero `altstore`; the error
  is dropped by the caller. -/
  unmarshalAltstore : GoString → altstore
  /-- The call `json.MarshalIndent` with tab indentation; `none` is a returned error. -/
  marshalIndent : altstore → Option GoString

/-- Ghost record of the effects a request performs. -/
inductive Effect where
  | resolveAsset (name : GoString)
  | outboundFetch (url : GoString)
  | catalogRead
  | catalogWrite (data : GoString)
  deriving DecidableEq, Repr

/-- The mutable surroundings of a request. `catalog` is the content of the
file at `ALTSTORE_FILE` (`none`: it cannot be read). `writeFault = some c`
means `os.WriteFile` returns an error and leaves the file as `c`. -/
structure World where
  catalog : Option GoString
  writeFault : Option (Option GoString)
  trace : List Effect
  deriving DecidableEq, Repr

/-- An inbound `POST /update`: the value of the `x-hub-signature-256` header
(`none`: header absent) and the request body (`none`: `ReadAll` fails). -/
structure Request where
  signatureHeader : Option GoString
  body : Option GoString
  deriving DecidableEq, Repr

/-- How the handler function ends: it sets a status, or it panics. -/
inductive Outcome where
  | responded (status : Nat)
  | panicked
  deriving DecidableEq, Repr

/-! ## main.go -/

/-- Digit of `%x`: `0-9`, then lowercase `a-f`. -/
def hexDigit (n : Nat) : Nat := if n < 10 then 48 + n else 87 + n

/-- The verb `%x` of `fmt.Sprintf` applied to a byte slice: two lowercase
hexadecimal digits per byte. -/
def hexLower (bs : GoString) : GoString :=
  bs.flatMap fun b => [hexDigit (b / 16 % 16), hexDigit (b % 16)]

/-- The same rendering with uppercase digits (`%X`); used only to state that
such a signature is not accepted. -/
def hexDigitUpper (n : Nat) : Nat := if n < 10 then 48 + n else 55 + n

/-- Uppercase rendering of a byte slice. -/
def hexUpper (bs : GoString) : GoString :=
  bs.flatMap fun b => [hexDigitUpper (b / 16 % 16), hexDigitUpper (b % 16)]

/-- Value of one hexadecimal digit character, lowercase or decimal; used only
to state that the rendering can be read back. -/
def hexValue (c : Nat) : Nat := if c < 58 then c - 48 else c - 87

/-- Reads a string of hexadecimal digit pairs back into bytes; used only to
state that the rendering determines the bytes. -/
def hexDecode : GoString → GoString
  | d1 :: d2 :: rest => (16 * hexValue d1 + hexValue d2) :: hexDecode rest
  | _ => []

/-- Lines 53-55: `fmt.Sprintf("sha256=%x", mac.Sum(nil))`. -/
def signatureString (env : Env) (body : GoString) : GoString :=
  str "sha256=" ++ hexLower (env.hmacSHA256 env.WEBHOOK_SECRET body)

/-- Whether the struct tag of `header.Signature` carries `binding:"required"`.
It does not: the tag is only `header:"x-hub-signature-256"`. -/
def signatureBindingRequired : Bool := false

/-- The call `c.ShouldBindHeader(&headers)` for the struct `header`: the field takes
the header's value when the header is present and keeps the zero value
otherwise; an absent header is an error only for a field tagged
`binding:"required"`. -/
def ShouldBindHeader (h : Option GoString) : Option header :=
  match h with
  | some v => some ⟨v⟩
  | none => if signatureBindingRequired then none else some ⟨[]⟩

/-- Function `findAsset`: the first asset of the slice whose `Name` equals `assetName`. -/
def findAsset (assets : List asset) (assetName : GoString) : Except String asset :=
  match assets with
  | [] => .error "not found"
  | a :: rest => if a.Name = assetName then .ok a else findAsset rest assetName

/-- Function `getFinalURL`. -/
def getFinalURL (env : Env) (url : GoString) (w : World) : Except String GoString × World :=
  let w1 := { w with trace := w.trace ++ [Effect.outboundFetch url] }
  match env.httpGet url with
  | none => (.error "error getting url", w1)
  | some resp => (.ok resp.finalURL, w1)

/-- Lines 174-181 of `getVersionFromPlist`: the first file of the archive
named `Payload/Discord.app/Info.plist`, `none` for the nil pointer. -/
def findPlistFile (files : List zipFile) : Option zipFile :=
  match files with
  | [] => none
  | zf :: rest =>
    if zf.Name = str "Payload/Discord.app/Info.plist" then some zf else findPlistFile rest

/-- Lines 174-210 of `getVersionFromPlist`, over the opened archive. The type
assertion `info["CFBundleShortVersionString"].(string)` has the one-result
form, which panics when the map has no such key (the value is then the nil
interface) or the value is not a `string`. -/
def versionFromArchive (env : Env) (files : List zipFile) : Result GoString :=
  match findPlistFile files with
  | none => .err "plist file missing from archive"
  | some plistFile =>
    match plistFile.content with
    | none => .err "zip: cannot read file"
    | some plistContent =>
      match env.plistDecode plistContent with
      | none => .err "plist: cannot decode"
      | some info =>
        match info (str "CFBundleShortVersionString") with
        | some (plistValue.string version) => .ok version
        | some plistValue.other => .panic
        | none => .panic

/-- Function `getVersionFromPlist`. -/
def getVersionFromPlist (env : Env) (url : GoString) (w : World) : Result GoString × World :=
  match getFinalURL env url w with
  | (.error e, w1) => (.err e, w1)
  | (.ok finalURL, w1) =>
    let w2 := { w1 with trace := w1.trace ++ [Effect.outboundFetch finalURL] }
    match env.httpGet finalURL with
    | none => (.err "couldn't get file", w2)
    | some resp =>
      match resp.body with
      | none => (.err "couldn't read body", w2)
      | some body =>
        match env.zipNewReader body with
        | none => (.err "zip: not a valid zip file", w2)
        | some files => (versionFromArchive env files, w2)

/-- Line 225: `altstore.Apps = append(apps, altstore.Apps...)`. -/
def mergeApps (existing : altstore) (apps : List app) : altstore :=
  { existing with Apps := apps ++ existing.Apps }

/-- Function `createAltstoreRelease`. -/
def createAltstoreRelease (env : Env) (apps : List app) (w : World) :
    Except String GoString × World :=
  let w1 := { w with trace := w.trace ++ [Effect.catalogRead] }
  match w.catalog with
  | none => (.error "couldn't read altstore file", w1)
  | some altstoreFile =>
    let existing := env.unmarshalAltstore altstoreFile
    match env.marshalIndent (mergeApps existing apps) with
    | none => (.error "couldn't create new altstore json", w1)
    | some updatedAltstore => (.ok updatedAltstore, w1)

/-- Function `createAltstoreApp`. It has no error result; `none` is the
run-time panic of the slice expression `release.CreatedAt[0:10]`, raised when
the string has fewer than 10 bytes. -/
def createAltstoreApp (a : asset) (r : release) (version : GoString) : Option app :=
  if r.CreatedAt.length < 10 then none
  else some
    { Name := str "Enmity"
      BundleIdentifier := str "com.hammerandchisel.discord"
      DeveloperName := str "Enmity Team"
      Subtitle := str "The power of addons, all in your hand."
      Version := version
      VersionDate := r.CreatedAt.take 10
      VersionDescription := r.Body
      DownloadUrl := a.DownloadUrl
      LocalizedDescription := str "Add plugins and themes to Discord!"
      IconURL := str "https://files.enmity.app/icon-altstore.png"
      TintColor := str "6D00FF"
      Size := a.Size
      Beta := false }

/-- The call `os.WriteFile(os.Getenv("ALTSTORE_FILE"), data, 0666)`; the boolean is
`err == nil`. -/
def writeFile (data : GoString) (w : World) : Bool × World :=
  let w1 := { w with trace := w.trace ++ [Effect.catalogWrite data] }
  match w.writeFault with
  | some left => (false, { w1 with catalog := left })
  | none => (true, { w1 with catalog := some data })

/-- Lines 74-117 of the `POST /update` handler: what happens once the action
is known to be `"published"`. -/
def publish (env : Env) (p : payload) (w : World) : Outcome × World :=
  let w1 := { w with trace := w.trace ++ [Effect.resolveAsset (str "enmity.ipa")] }
  match findAsset p.Release.Assets (str "enmity.ipa") with
  | .error _ => (.responded 500, w1)
  | .ok enmityStable =>
    let w2 := { w1 with trace := w1.trace ++ [Effect.resolveAsset (str "enmity.dev.ipa")] }
    match findAsset p.Release.Assets (str "enmity.dev.ipa") with
    | .error _ => (.responded 500, w2)
    | .ok enmityDev =>
      match getVersionFromPlist env enmityStable.DownloadUrl w2 with
      | (.err _, w3) => (.responded 500, w3)
      | (.panic, w3) => (.panicked, w3)
      | (.ok version, w3) =>
        match createAltstoreApp enmityStable p.Release version with
        | none => (.panicked, w3)
        | some stableApp =>
          match createAltstoreApp enmityDev p.Release version with
          | none => (.panicked, w3)
          | some devApp =>
            match createAltstoreRelease env [stableApp, devApp] w3 with
            | (.error _, w4) => (.responded 500, w4)
            | (.ok data, w4) =>
              match writeFile data w4 with
              | (false, w5) => (.responded 500, w5)
              | (true, w5) => (.responded 200, w5)

/-- The `POST /update` handler function (lines 34-118). -/
def handler (env : Env) (req : Request) (w : World) : Outcome × World :=
  match ShouldBindHeader req.signatureHeader with
  | none => (.responded 400, w)
  | some headers =>
    match req.body with
    | none => (.responded 500, w)
    | some body =>
      if signatureString env body ≠ headers.Signature then (.responded 401, w)
      else
        let p := env.unmarshalPayload body
        if p.Action ≠ str "published" then (.responded 200, w)
        else publish env p w

/-- Status the client receives. The router is `gin.Default()` (line 28), whose
recovery middleware answers a panicking handler with 500. -/
def responseStatus (o : Outcome) : Nat :=
  match o with
  | .responded s => s
  | .panicked => 500

/-- Serving one `POST /update`: the status sent and the world afterwards. -/
def serve (env : Env) (req : Request) (w : World) : Nat × World :=
  let r := handler env req w
  (responseStatus r.1, r.2)

/-! ## Sample data for concrete evaluations -/

/-- A release payload with both packages attached, created at `createdAt`. -/
def samplePayload (createdAt : GoString) : payload :=
  { Action := str "published"
    Release :=
      { Body := str "notes"
        CreatedAt := createdAt
        Assets :=
          [ ⟨str "https://h/enmity.ipa", str "enmity.ipa", 100⟩,
            ⟨str "https://h/enmity.dev.ipa", str "enmity.dev.ipa", 200⟩ ] } }

/-- An entry already present in the sample catalog. -/
def sampleOldApp : app :=
  { Name := str "Enmity"
    BundleIdentifier := str "com.hammerandchisel.discord"
    DeveloperName := str "Enmity Team"
    Subtitle := str "old"
    Version := str "3.9.0"
    VersionDate := str "2022-01-01"
    VersionDescription := str "previous"
    DownloadUrl := str "https://h/old.ipa"
    LocalizedDescription := str "old"
    IconURL := str "icon"
    TintColor := str "6D00FF"
    Size := 7
    Beta := false }

/-- A concrete environment: every body decodes to `p`, every URL serves an
archive holding `Payload/Discord.app/Info.plist`, whose property list is
`info`; the catalog decodes to one old entry. -/
def sampleEnv (p : payload) (info : GoString → Option plistValue) : Env :=
  { WEBHOOK_SECRET := str "secret"
    hmacSHA256 := fun key msg => [171, (key.length + msg.length) % 256]
    unmarshalPayload := fun _ => p
    httpGet := fun url => some ⟨url, some (str "PK")⟩
    zipNewReader := fun _ =>
      some [⟨str "META-INF/x", some []⟩,
            ⟨str "Payload/Discord.app/Info.plist", some (str "bplist")⟩]
    plistDecode := fun _ => some info
    unmarshalAltstore := fun _ => ⟨str "Enmity", str "app.enmity", [sampleOldApp], ()⟩
    marshalIndent := fun d => some (d.Apps.flatMap fun a => a.Version ++ a.DownloadUrl) }

/-- A property list whose short version string is `4.0.0`. -/
def sampleInfo : GoString → Option plistValue :=
  fun k => if k = str "CFBundleShortVersionString" then some (.string (str "4.0.0")) else none

/-- A property list without the short version string. -/
def sampleInfoNoKey : GoString → Option plistValue :=
  fun k => if k = str "CFBundleVersion" then some (.string (str "4.0.0")) else none

/-- A property list whose short version string is not a string. -/
def sampleInfoNotString : GoString → Option plistValue :=
  fun k => if k = str "CFBundleShortVersionString" then some .other else none

/-- A world whose catalog file exists and can be written. -/
def sampleWorld : World := ⟨some (str "catalog"), none, []⟩

/-- A request body. -/
def sampleBody : GoString := str "body"

/-! ## Helper lemmas -/

theorem createAltstoreApp_none_iff (a : asset) (r : release) (version : GoString) :
    createAltstoreApp a r version = none ↔ r.CreatedAt.length < 10 := by
  unfold createAltstoreApp
  by_cases h : r.CreatedAt.length < 10 <;> simp [h]

theorem getVersionFromPlist_fst (env : Env) (url : GoString) (w w' : World) :
    (getVersionFromPlist env url w).1 = (getVersionFromPlist env url w').1 := by
  unfold getVersionFromPlist getFinalURL
  cases env.httpGet url with
  | none => rfl
  | some resp =>
    simp only []
    cases env.httpGet resp.finalURL with
    | none => rfl
    | some resp2 =>
      simp only []
      cases resp2.body with
      | none => rfl
      | some body =>
        simp only []
        cases env.zipNewReader body <;> rfl

theorem getVersionFromPlist_frame (env : Env) (url : GoString) (w : World) :
    (getVersionFromPlist env url w).2.catalog = w.catalog
    ∧ (getVersionFromPlist env url w).2.writeFault = w.writeFault := by
  unfold getVersionFromPlist getFinalURL
  cases env.httpGet url with
  | none => exact ⟨rfl, rfl⟩
  | some resp =>
    simp only []
    cases env.httpGet resp.finalURL with
    | none => exact ⟨rfl, rfl⟩
    | some resp2 =>
      simp only []
      cases resp2.body with
      | none => exact ⟨rfl, rfl⟩
      | some body =>
        simp only []
        cases env.zipNewReader body <;> exact ⟨rfl, rfl⟩

theorem sha256_prefix_ne_nil (t : GoString) : str "sha256=" ++ t ≠ [] := by
  simp [str]


theorem findAsset_ok_split (assets : List asset) (assetName : GoString) (a : asset) :
    findAsset assets assetName = .ok a ↔
      ∃ before after, assets = before ++ a :: after ∧ a.Name = assetName ∧
        ∀ b ∈ before, b.Name ≠ assetName := by
  induction assets with
  | nil => simp [findAsset]
  | cons x rest ih =>
    unfold findAsset
    by_cases hx : x.Name = assetName
    · simp only [hx, if_true]
      constructor
      · intro h
        injection h with h
        subst h
        exact ⟨[], rest, rfl, hx, by simp⟩
      · rintro ⟨before, after, hsplit, _, hbefore⟩
        cases before with
        | nil =>
          simp only [List.nil_append, List.cons.injEq] at hsplit
          rw [hsplit.1]
        | cons y ys =>
          simp only [List.cons_append, List.cons.injEq] at hsplit
          exact absurd (hsplit.1 ▸ hx) (hbefore y (by simp))
    · simp only [hx, if_false]
      rw [ih]
      constructor
      · rintro ⟨before, after, hsplit, hname, hbefore⟩
        refine ⟨x :: before, after, by simp [hsplit], hname, ?_⟩
        intro b hb
        rcases List.mem_cons.mp hb with rfl | hb
        · exact hx
        · exact hbefore b hb
      · rintro ⟨before, after, hsplit, hname, hbefore⟩
        cases before with
        | nil =>
          simp only [List.nil_append, List.cons.injEq] at hsplit
          exact absurd (hsplit.1 ▸ hname) hx
        | cons y ys =>
          simp only [List.cons_append, List.cons.injEq] at hsplit
          exact ⟨ys, after, hsplit.2, hname, fun b hb => hbefore b (by simp [hb])⟩

theorem findAsset_error_iff (assets : List asset) (assetName : GoString) :
    findAsset assets assetName = .error "not found" ↔ ∀ a ∈ assets, a.Name ≠ assetName := by
  induction assets with
  | nil => simp [findAsset]
  | cons x rest ih =>
    unfold findAsset
    by_cases hx : x.Name = assetName
    · simp [hx]
    · simp [hx, ih]

theorem findAsset_error_msg (assets : List asset) (assetName : GoString) (e : String)
    (h : findAsset assets assetName = .error e) : e = "not found" := by
  induction assets with
  | nil =>
    simp only [findAsset, Except.error.injEq] at h
    exact h.symm
  | cons x rest ih =>
    unfold findAsset at h
    by_cases hx : x.Name = assetName
    · simp [hx] at h
    · simp only [hx, if_false] at h
      exact ih h

theorem publish_status (env : Env) (p : payload) (w : World) :
    responseStatus (publish env p w).1 = 200 ∨ responseStatus (publish env p w).1 = 500 := by
  unfold publish
  cases findAsset p.Release.Assets (str "enmity.ipa") with
  | error e => simp [responseStatus]
  | ok enmityStable =>
    simp only []
    cases findAsset p.Release.Assets (str "enmity.dev.ipa") with
    | error e => simp [responseStatus]
    | ok enmityDev =>
      simp only []
      rcases getVersionFromPlist env enmityStable.DownloadUrl _ with ⟨res, w3⟩
      cases res with
      | err e => simp [responseStatus]
      | panic => simp [responseStatus]
      | ok version =>
        simp only []
        cases createAltstoreApp enmityStable p.Release version with
        | none => simp [responseStatus]
        | some stableApp =>
          simp only []
          cases createAltstoreApp enmityDev p.Release version with
          | none => simp [responseStatus]
          | some devApp =>
            simp only []
            rcases createAltstoreRelease env [stableApp, devApp] w3 with ⟨rel, w4⟩
            cases rel with
            | error e => simp [responseStatus]
            | ok data =>
              simp only []
              rcases writeFile data w4 with ⟨okWrite, w5⟩
              cases okWrite <;> simp [responseStatus]

theorem handler_of_valid_signature (env : Env) (B : GoString) (w : World) :
    handler env ⟨some (signatureString env B), some B⟩ w
      = if (env.unmarshalPayload B).Action ≠ str "published" then (.responded 200, w)
        else publish env (env.unmarshalPayload B) w := by
  simp [handler, ShouldBindHeader]

theorem handler_of_invalid_signature (env : Env) (B X : GoString) (w : World)
    (h : X ≠ signatureString env B) :
    handler env ⟨some X, some B⟩ w = (.responded 401, w) := by
  simp [handler, ShouldBindHeader, Ne.symm h]

theorem createAltstoreRelease_frame (env : Env) (apps : List app) (w : World) :
    (createAltstoreRelease env apps w).2.catalog = w.catalog
    ∧ (createAltstoreRelease env apps w).2.writeFault = w.writeFault := by
  unfold createAltstoreRelease
  cases w.catalog with
  | none => exact ⟨rfl, rfl⟩
  | some altstoreFile =>
    simp only []
    cases env.marshalIndent (mergeApps (env.unmarshalAltstore altstoreFile) apps) <;>
      exact ⟨rfl, rfl⟩

theorem createAltstoreRelease_ok_inv (env : Env) (apps : List app) (w : World)
    (data : GoString) (h : (createAltstoreRelease env apps w).1 = .ok data) :
    ∃ content, w.catalog = some content
      ∧ env.marshalIndent (mergeApps (env.unmarshalAltstore content) apps) = some data := by
  unfold createAltstoreRelease at h
  cases hc : w.catalog with
  | none => simp [hc] at h
  | some content =>
    simp only [hc] at h
    cases hm : env.marshalIndent (mergeApps (env.unmarshalAltstore content) apps) with
    | none => simp [hm] at h
    | some d =>
      simp only [hm, Except.ok.injEq] at h
      exact ⟨content, rfl, by rw [hm, h]⟩

/-- Unless every step up to the encoding of the merged catalog succeeded,
`publish` answers 500 (also through recovery from a panic) and the catalog
file is as before. -/
theorem publish_not_500_inv (env : Env) (p : payload) (w : World)
    (h : ¬ (responseStatus (publish env p w).1 = 500 ∧ (publish env p w).2.catalog = w.catalog)) :
    ∃ stable dev version content,
      findAsset p.Release.Assets (str "enmity.ipa") = .ok stable
      ∧ findAsset p.Release.Assets (str "enmity.dev.ipa") = .ok dev
      ∧ (getVersionFromPlist env stable.DownloadUrl w).1 = .ok version
      ∧ 10 ≤ p.Release.CreatedAt.length
      ∧ w.catalog = some content := by
  unfold publish at h
  cases hs : findAsset p.Release.Assets (str "enmity.ipa") with
  | error e => simp [hs, responseStatus] at h
  | ok enmityStable =>
    simp only [hs] at h
    cases hd : findAsset p.Release.Assets (str "enmity.dev.ipa") with
    | error e => simp [hd, responseStatus] at h
    | ok enmityDev =>
      simp only [hd] at h
      have hframe := getVersionFromPlist_frame env enmityStable.DownloadUrl
        { w with trace := w.trace ++ [Effect.resolveAsset (str "enmity.ipa")]
                    ++ [Effect.resolveAsset (str "enmity.dev.ipa")] }
      have hfst := getVersionFromPlist_fst env enmityStable.DownloadUrl
        { w with trace := w.trace ++ [Effect.resolveAsset (str "enmity.ipa")]
                    ++ [Effect.resolveAsset (str "enmity.dev.ipa")] } w
      rcases hgv : getVersionFromPlist env enmityStable.DownloadUrl
        { w with trace := w.trace ++ [Effect.resolveAsset (str "enmity.ipa")]
                    ++ [Effect.resolveAsset (str "enmity.dev.ipa")] } with ⟨res, w3⟩
      rw [hgv] at hframe hfst h
      simp only at hframe hfst
      cases res with
      | err e => simp [responseStatus, hframe.1] at h
      | panic => simp [responseStatus, hframe.1] at h
      | ok version =>
        simp only [] at h
        cases ha : createAltstoreApp enmityStable p.Release version with
        | none => simp [ha, responseStatus, hframe.1] at h
        | some stableApp =>
          simp only [ha] at h
          cases hb : createAltstoreApp enmityDev p.Release version with
          | none => simp [hb, responseStatus, hframe.1] at h
          | some devApp =>
            simp only [hb] at h
            have hlen : 10 ≤ p.Release.CreatedAt.length := by
              by_contra hlt
              have := (createAltstoreApp_none_iff enmityStable p.Release version).mpr
                (Nat.lt_of_not_le hlt)
              rw [ha] at this
              exact absurd this (by simp)
            have hrel := createAltstoreRelease_frame env [stableApp, devApp] w3
            have hinv := createAltstoreRelease_ok_inv env [stableApp, devApp] w3
            rcases hcr : createAltstoreRelease env [stableApp, devApp] w3 with ⟨rel, w4⟩
            rw [hcr] at hrel hinv h
            simp only at hrel hinv
            cases rel with
            | error e => simp [responseStatus, hrel.1, hframe.1] at h
            | ok data =>
              obtain ⟨content, hcontent, _⟩ := hinv data rfl
              exact ⟨enmityStable, enmityDev, version, content, rfl, rfl, hfst.symm, hlen,
                by rw [← hframe.1, hcontent]⟩

theorem getVersionFromPlist_ok_world (env : Env) (url : GoString) (w : World)
    (version : GoString) (h : (getVersionFromPlist env url w).1 = .ok version) :
    ∃ finalURL, getVersionFromPlist env url w
      = (.ok version,
          { w with trace := w.trace ++ [Effect.outboundFetch url]
                      ++ [Effect.outboundFetch finalURL] }) := by
  unfold getVersionFromPlist getFinalURL at h ⊢
  cases h1 : env.httpGet url with
  | none => simp [h1] at h
  | some resp =>
    simp only [h1] at h ⊢
    cases h2 : env.httpGet resp.finalURL with
    | none => simp [h2] at h
    | some resp2 =>
      simp only [h2] at h ⊢
      cases h3 : resp2.body with
      | none => simp [h3] at h
      | some body =>
        simp only [h3] at h ⊢
        cases h4 : env.zipNewReader body with
        | none => simp [h4] at h
        | some files =>
          simp only [h4] at h ⊢
          exact ⟨resp.finalURL, by rw [h]⟩

theorem findPlistFile_some_iff (files : List zipFile) (f : zipFile) :
    findPlistFile files = some f ↔
      ∃ before after, files = before ++ f :: after
        ∧ f.Name = str "Payload/Discord.app/Info.plist"
        ∧ ∀ g ∈ before, g.Name ≠ str "Payload/Discord.app/Info.plist" := by
  induction files with
  | nil => simp [findPlistFile]
  | cons x rest ih =>
    unfold findPlistFile
    by_cases hx : x.Name = str "Payload/Discord.app/Info.plist"
    · simp only [hx, if_true]
      constructor
      · intro h
        injection h with h
        subst h
        exact ⟨[], rest, rfl, hx, by simp⟩
      · rintro ⟨before, after, hsplit, _, hbefore⟩
        cases before with
        | nil =>
          simp only [List.nil_append, List.cons.injEq] at hsplit
          rw [hsplit.1]
        | cons y ys =>
          simp only [List.cons_append, List.cons.injEq] at hsplit
          exact absurd (hsplit.1 ▸ hx) (hbefore y (by simp))
    · simp only [hx, if_false]
      rw [ih]
      constructor
      · rintro ⟨before, after, hsplit, hname, hbefore⟩
        refine ⟨x :: before, after, by simp [hsplit], hname, ?_⟩
        intro g hg
        rcases List.mem_cons.mp hg with rfl | hg
        · exact hx
        · exact hbefore g hg
      · rintro ⟨before, after, hsplit, hname, hbefore⟩
        cases before with
        | nil =>
          simp only [List.nil_append, List.cons.injEq] at hsplit
          exact absurd (hsplit.1 ▸ hname) hx
        | cons y ys =>
          simp only [List.cons_append, List.cons.injEq] at hsplit
          exact ⟨ys, after, hsplit.2, hname, fun g hg => hbefore g (by simp [hg])⟩

theorem findPlistFile_none_iff (files : List zipFile) :
    findPlistFile files = none ↔
      ∀ g ∈ files, g.Name ≠ str "Payload/Discord.app/Info.plist" := by
  induction files with
  | nil => simp [findPlistFile]
  | cons x rest ih =>
    unfold findPlistFile
    by_cases hx : x.Name = str "Payload/Discord.app/Info.plist"
    · simp [hx]
    · simp [hx, ih]

/-- What `versionFromArchive` does in each case: a version exactly when the
first entry at the Info.plist path can be read, decodes, and holds a string
under the short-version key; a returned error when there is no such entry, it
cannot be read or it does not decode; a panic when it decodes but the key is
absent or its value is not a string. -/
theorem versionFromArchive_cases (env : Env) (files : List zipFile) :
    (∀ v, versionFromArchive env files = .ok v ↔
        ∃ f c info, findPlistFile files = some f ∧ f.content = some c
          ∧ env.plistDecode c = some info
          ∧ info (str "CFBundleShortVersionString") = some (.string v))
    ∧ ((∃ msg, versionFromArchive env files = .err msg) ↔
        (findPlistFile files = none
          ∨ ∃ f, findPlistFile files = some f
              ∧ (f.content = none ∨ ∃ c, f.content = some c ∧ env.plistDecode c = none)))
    ∧ (versionFromArchive env files = .panic ↔
        ∃ f c info, findPlistFile files = some f ∧ f.content = some c
          ∧ env.plistDecode c = some info
          ∧ (info (str "CFBundleShortVersionString") = none
              ∨ info (str "CFBundleShortVersionString") = some .other)) := by
  unfold versionFromArchive
  cases hf : findPlistFile files with
  | none => simp
  | some f =>
    simp only []
    cases hc : f.content with
    | none => simp [hc]
    | some c =>
      simp only []
      cases hd : env.plistDecode c with
      | none => simp [hc, hd]
      | some info =>
        simp only []
        cases hk : info (str "CFBundleShortVersionString") with
        | none => simp [hc, hd, hk]
        | some val =>
          cases val with
          | string s => simp [hc, hd, hk]
          | other => simp [hc, hd, hk]

theorem getVersionFromPlist_trace (env : Env) (url : GoString) (w : World) :
    (w.trace ++ [Effect.outboundFetch url]) <+: (getVersionFromPlist env url w).2.trace := by
  unfold getVersionFromPlist getFinalURL
  cases env.httpGet url with
  | none => exact List.prefix_refl _
  | some resp =>
    simp only []
    cases env.httpGet resp.finalURL with
    | none => exact List.prefix_append _ _
    | some resp2 =>
      simp only []
      cases resp2.body with
      | none => exact List.prefix_append _ _
      | some body =>
        simp only []
        cases env.zipNewReader body <;> exact List.prefix_append _ _

theorem createAltstoreRelease_trace (env : Env) (apps : List app) (w : World) :
    (createAltstoreRelease env apps w).2.trace = w.trace ++ [Effect.catalogRead] := by
  unfold createAltstoreRelease
  cases w.catalog with
  | none => rfl
  | some altstoreFile =>
    simp only []
    cases env.marshalIndent (mergeApps (env.unmarshalAltstore altstoreFile) apps) <;> rfl

theorem writeFile_trace (data : GoString) (w : World) :
    (writeFile data w).2.trace = w.trace ++ [Effect.catalogWrite data] := by
  unfold writeFile
  cases w.writeFault <;> rfl

/-- Every run of `publish` records at least the resolution of `enmity.ipa`:
the trace is never left as it was. -/
theorem publish_trace (env : Env) (p : payload) (w : World) :
    (w.trace ++ [Effect.resolveAsset (str "enmity.ipa")]) <+: (publish env p w).2.trace := by
  unfold publish
  cases findAsset p.Release.Assets (str "enmity.ipa") with
  | error e => exact List.prefix_refl _
  | ok enmityStable =>
    simp only []
    cases findAsset p.Release.Assets (str "enmity.dev.ipa") with
    | error e => exact List.prefix_append _ _
    | ok enmityDev =>
      simp only []
      have h3 := getVersionFromPlist_trace env enmityStable.DownloadUrl
        { w with trace := w.trace ++ [Effect.resolveAsset (str "enmity.ipa")]
                    ++ [Effect.resolveAsset (str "enmity.dev.ipa")] }
      rcases hgv : getVersionFromPlist env enmityStable.DownloadUrl
        { w with trace := w.trace ++ [Effect.resolveAsset (str "enmity.ipa")]
                    ++ [Effect.resolveAsset (str "enmity.dev.ipa")] } with ⟨res, w3⟩
      rw [hgv] at h3
      simp only [List.append_assoc] at h3
      have hw3 : (w.trace ++ [Effect.resolveAsset (str "enmity.ipa")]) <+: w3.trace := by
        refine List.IsPrefix.trans ?_ h3
        rw [← List.append_assoc]
        exact List.prefix_append _ _
      cases res with
      | err e => exact hw3
      | panic => exact hw3
      | ok version =>
        simp only []
        cases createAltstoreApp enmityStable p.Release version with
        | none => exact hw3
        | some stableApp =>
          simp only []
          cases createAltstoreApp enmityDev p.Release version with
          | none => exact hw3
          | some devApp =>
            simp only []
            have h4 := createAltstoreRelease_trace env [stableApp, devApp] w3
            rcases hcr : createAltstoreRelease env [stableApp, devApp] w3 with ⟨rel, w4⟩
            rw [hcr] at h4
            simp only at h4
            have hw4 : (w.trace ++ [Effect.resolveAsset (str "enmity.ipa")]) <+: w4.trace := by
              rw [h4]
              exact List.IsPrefix.trans hw3 (List.prefix_append _ _)
            cases rel with
            | error e => exact hw4
            | ok data =>
              simp only []
              have h5 := writeFile_trace data w4
              rcases hwf : writeFile data w4 with ⟨okWrite, w5⟩
              rw [hwf] at h5
              simp only at h5
              have hw5 : (w.trace ++ [Effect.resolveAsset (str "enmity.ipa")]) <+: w5.trace := by
                rw [h5]
                exact List.IsPrefix.trans hw4 (List.prefix_append _ _)
              cases okWrite <;> exact hw5

theorem hexDigit_table : ∀ n, n < 16 →
    hexDigit n = (str "0123456789abcdef").getD n 0 := by
  decide

theorem hexValue_hexDigit : ∀ n, n < 16 → hexValue (hexDigit n) = n := by
  decide

theorem hexDigitUpper_eq_hexDigit_iff : ∀ n, n < 16 →
    (hexDigitUpper n = hexDigit n ↔ n < 10) := by
  decide

theorem hexLower_cons (b : Nat) (bs : GoString) :
    hexLower (b :: bs) = hexDigit (b / 16 % 16) :: hexDigit (b % 16) :: hexLower bs := by
  simp [hexLower]

theorem hexUpper_cons (b : Nat) (bs : GoString) :
    hexUpper (b :: bs)
      = hexDigitUpper (b / 16 % 16) :: hexDigitUpper (b % 16) :: hexUpper bs := by
  simp [hexUpper]

theorem hexLower_length (bs : GoString) : (hexLower bs).length = 2 * bs.length := by
  induction bs with
  | nil => rfl
  | cons b rest ih =>
    rw [hexLower_cons]
    simp only [List.length_cons, ih]
    omega

theorem hexLower_alphabet (bs : GoString) :
    ∀ c ∈ hexLower bs, c ∈ str "0123456789abcdef" := by
  have hdigit : ∀ n, n < 16 → hexDigit n ∈ str "0123456789abcdef" := by decide
  induction bs with
  | nil => simp [hexLower]
  | cons b rest ih =>
    rw [hexLower_cons]
    intro c hc
    rcases List.mem_cons.mp hc with rfl | hc
    · exact hdigit _ (Nat.mod_lt _ (by decide))
    · rcases List.mem_cons.mp hc with rfl | hc
      · exact hdigit _ (Nat.mod_lt _ (by decide))
      · exact ih c hc

theorem hexLower_eq_table (bs : GoString) :
    hexLower bs = bs.flatMap fun b =>
      [(str "0123456789abcdef").getD (b / 16 % 16) 0,
       (str "0123456789abcdef").getD (b % 16) 0] := by
  induction bs with
  | nil => rfl
  | cons b rest ih =>
    rw [hexLower_cons, List.flatMap_cons, ← ih,
      hexDigit_table _ (Nat.mod_lt _ (by decide)), hexDigit_table _ (Nat.mod_lt _ (by decide))]
    rfl

theorem hexDecode_hexLower (bs : GoString) :
    hexDecode (hexLower bs) = bs.map fun b => b % 256 := by
  induction bs with
  | nil => rfl
  | cons b rest ih =>
    rw [hexLower_cons, hexDecode, ih, hexValue_hexDigit _ (Nat.mod_lt _ (by decide)),
      hexValue_hexDigit _ (Nat.mod_lt _ (by decide)), List.map_cons]
    congr 1
    omega

theorem hexUpper_eq_hexLower_digits (bs : GoString) (h : hexUpper bs = hexLower bs) :
    ∀ b ∈ bs, b / 16 % 16 < 10 ∧ b % 16 < 10 := by
  induction bs with
  | nil => simp
  | cons b rest ih =>
    rw [hexLower_cons, hexUpper_cons] at h
    simp only [List.cons.injEq] at h
    obtain ⟨h1, h2, h3⟩ := h
    intro x hx
    rcases List.mem_cons.mp hx with rfl | hx
    · exact ⟨(hexDigitUpper_eq_hexDigit_iff _ (Nat.mod_lt _ (by decide))).mp h1,
        (hexDigitUpper_eq_hexDigit_iff _ (Nat.mod_lt _ (by decide))).mp h2⟩
    · exact ih h3 x hx

/-! ## Claims -/

/-- C1: for every existing document and new entries e1, e2, the merge step of
createAltstoreRelease yields a document whose apps are e1, e2 followed by the
existing apps: the existing entries are all kept, in their order, nothing is
dropped as a duplicate (every entry occurs as often as in the two inputs
together, and merging one entry twice leaves it twice), the other fields are
carried over, and this merged document is the one createAltstoreRelease
encodes. -/
theorem createAltstoreRelease_merge_prepends (env : Env) (existingDoc : altstore)
    (e1 e2 : app) (content : GoString) (fault : Option (Option GoString)) (tr : List Effect) :
    (mergeApps existingDoc [e1, e2]).Apps = [e1, e2] ++ existingDoc.Apps
    ∧ (mergeApps existingDoc [e1, e2]).Apps.drop 2 = existingDoc.Apps
    ∧ List.Sublist existingDoc.Apps (mergeApps existingDoc [e1, e2]).Apps
    ∧ (∀ x, (mergeApps existingDoc [e1, e2]).Apps.count x
          = [e1, e2].count x + existingDoc.Apps.count x)
    ∧ (mergeApps (mergeApps existingDoc [e1]) [e1]).Apps = e1 :: e1 :: existingDoc.Apps
    ∧ (mergeApps existingDoc [e1, e2]).Name = existingDoc.Name
    ∧ (mergeApps existingDoc [e1, e2]).Identifier = existingDoc.Identifier
    ∧ (createAltstoreRelease env [e1, e2] ⟨some content, fault, tr⟩).1
        = (match env.marshalIndent (mergeApps (env.unmarshalAltstore content) [e1, e2]) with
           | some updated => Except.ok updated
           | none => Except.error "couldn't create new altstore json") := by
  refine ⟨rfl, rfl, ?_, ?_, rfl, rfl, rfl, ?_⟩
  · exact List.sublist_append_right _ _
  · intro x
    simp only [mergeApps, List.count_append]
  · simp only [createAltstoreRelease]
    cases env.marshalIndent (mergeApps (env.unmarshalAltstore content) [e1, e2]) <;> rfl

/-- C2: findAsset returns the first asset, in list order, whose name equals the
target byte for byte (so a name differing only in letter case does not match),
and it returns the not-found error exactly when no asset of the list has that
name; it has no other result. -/
theorem findAsset_first_exact_match (assets : List asset) (assetName : GoString) :
    (∀ a, findAsset assets assetName = .ok a ↔
        ∃ before after, assets = before ++ a :: after ∧ a.Name = assetName ∧
          ∀ b ∈ before, b.Name ≠ assetName)
    ∧ (findAsset assets assetName = .error "not found" ↔ ∀ a ∈ assets, a.Name ≠ assetName)
    ∧ (∀ e, findAsset assets assetName = .error e ↔
        (e = "not found" ∧ ∀ a ∈ assets, a.Name ≠ assetName))
    ∧ findAsset [⟨str "u", str "Enmity.ipa", 1⟩, ⟨str "v", str "enmity.ipa", 2⟩]
        (str "enmity.ipa") = .ok ⟨str "v", str "enmity.ipa", 2⟩ := by
  refine ⟨fun a => findAsset_ok_split assets assetName a, findAsset_error_iff assets assetName,
    ?_, by decide⟩
  intro e
  constructor
  · intro h
    have he := findAsset_error_msg assets assetName e h
    subst he
    exact ⟨rfl, (findAsset_error_iff assets assetName).mp h⟩
  · rintro ⟨rfl, h⟩
    exact (findAsset_error_iff assets assetName).mpr h

/-- C4: when the release creation timestamp has at least 10 characters (bytes
of the Go string), createAltstoreApp returns an entry whose version date is
exactly the first 10 characters of that timestamp. -/
theorem createAltstoreApp_versionDate (a : asset) (r : release) (version : GoString)
    (h : 10 ≤ r.CreatedAt.length) :
    ∃ e, createAltstoreApp a r version = some e
      ∧ e.VersionDate = r.CreatedAt.take 10
      ∧ e.VersionDate.length = 10
      ∧ e.VersionDate <+: r.CreatedAt := by
  have hlen : ¬ r.CreatedAt.length < 10 := Nat.not_lt.mpr h
  simp only [createAltstoreApp, hlen, if_false]
  refine ⟨_, rfl, rfl, ?_, ?_⟩
  · simp only [List.length_take]
    omega
  · exact List.take_prefix 10 r.CreatedAt

theorem createAltstoreApp_versionDate_witness :
    ∃ e, createAltstoreApp ⟨str "https://x/enmity.ipa", str "enmity.ipa", 42⟩
          ⟨str "notes", str "2022-05-01T10:00:00Z", []⟩ (str "4.0.0") = some e
      ∧ e.VersionDate = (str "2022-05-01T10:00:00Z").take 10
      ∧ e.VersionDate.length = 10
      ∧ e.VersionDate <+: str "2022-05-01T10:00:00Z" :=
  createAltstoreApp_versionDate ⟨str "https://x/enmity.ipa", str "enmity.ipa", 42⟩
    ⟨str "notes", str "2022-05-01T10:00:00Z", []⟩ (str "4.0.0") (by decide)

/-- C10: createAltstoreApp returns an entry for every asset, version and release
whose creation timestamp has at least 10 characters, and it fails (the slice
expression panics) exactly when the timestamp is shorter than 10. -/
theorem createAltstoreApp_total_iff (a : asset) (r : release) (version : GoString) :
    ((∃ e, createAltstoreApp a r version = some e) ↔ 10 ≤ r.CreatedAt.length)
    ∧ (createAltstoreApp a r version = none ↔ r.CreatedAt.length < 10) := by
  unfold createAltstoreApp
  by_cases h : r.CreatedAt.length < 10
  · simp [h]
  · simp only [h, if_false]
    simp only [Option.some.injEq, exists_eq', true_iff, reduceCtorEq, false_iff]
    exact ⟨Nat.not_lt.mp h, trivial⟩

/-- C3: for every body B, secret (and keyed hash) of the environment and
claimed signature X, the signature check of the handler passes exactly when X
is the string sha256= followed by the lowercase hexadecimal rendering of
HMAC-SHA256(secret, B) over the raw body: with that X the handler goes on to
decode the payload, and with every other X it answers 401 and does nothing
else. The rendering is pinned down: two characters per digest byte, each the
character of 0123456789abcdef at the position given by the high and the low
half of the byte, so that the digest can be read back from it. The empty
string is rejected, and so is the uppercase rendering of every digest that
has a letter among its digits. -/
theorem signature_check_iff (env : Env) (B X : GoString) (w : World) :
    ((serve env ⟨some X, some B⟩ w).1 = 401 ↔
        X ≠ str "sha256=" ++ hexLower (env.hmacSHA256 env.WEBHOOK_SECRET B))
    ∧ (X ≠ str "sha256=" ++ hexLower (env.hmacSHA256 env.WEBHOOK_SECRET B) →
        handler env ⟨some X, some B⟩ w = (.responded 401, w))
    ∧ (X = str "sha256=" ++ hexLower (env.hmacSHA256 env.WEBHOOK_SECRET B) →
        handler env ⟨some X, some B⟩ w
          = if (env.unmarshalPayload B).Action ≠ str "published" then (.responded 200, w)
            else publish env (env.unmarshalPayload B) w)
    ∧ handler env ⟨some [], some B⟩ w = (.responded 401, w)
    ∧ (hexUpper (env.hmacSHA256 env.WEBHOOK_SECRET B)
          ≠ hexLower (env.hmacSHA256 env.WEBHOOK_SECRET B) →
        handler env
          ⟨some (str "sha256=" ++ hexUpper (env.hmacSHA256 env.WEBHOOK_SECRET B)), some B⟩ w
          = (.responded 401, w))
    ∧ ((∃ b ∈ env.hmacSHA256 env.WEBHOOK_SECRET B, 10 ≤ b / 16 % 16 ∨ 10 ≤ b % 16) →
        handler env
          ⟨some (str "sha256=" ++ hexUpper (env.hmacSHA256 env.WEBHOOK_SECRET B)), some B⟩ w
          = (.responded 401, w))
    ∧ signatureString env B
        = str "sha256=" ++ (env.hmacSHA256 env.WEBHOOK_SECRET B).flatMap (fun b =>
            [(str "0123456789abcdef").getD (b / 16 % 16) 0,
             (str "0123456789abcdef").getD (b % 16) 0])
    ∧ (signatureString env B).length = 7 + 2 * (env.hmacSHA256 env.WEBHOOK_SECRET B).length
    ∧ (∀ c ∈ (signatureString env B).drop 7, c ∈ str "0123456789abcdef")
    ∧ (signatureString env B).take 7 = str "sha256="
    ∧ hexDecode ((signatureString env B).drop 7)
        = (env.hmacSHA256 env.WEBHOOK_SECRET B).map (fun b => b % 256)
    ∧ hexLower [0, 1, 9, 10, 15, 16, 127, 128, 171, 205, 239, 255]
        = str "0001090a0f107f80abcdefff"
    ∧ handler (sampleEnv (samplePayload (str "2022-05-01T10:00:00Z")) sampleInfo)
        ⟨some (str "sha256=AB0A"), some sampleBody⟩ sampleWorld = (.responded 401, sampleWorld)
    ∧ handler (sampleEnv (samplePayload (str "2022-05-01T10:00:00Z")) sampleInfo)
        ⟨some (str "sha256="), some sampleBody⟩ sampleWorld = (.responded 401, sampleWorld)
    ∧ handler (sampleEnv (samplePayload (str "2022-05-01T10:00:00Z")) sampleInfo)
        ⟨some (str "ab0a"), some sampleBody⟩ sampleWorld = (.responded 401, sampleWorld)
    ∧ (handler (sampleEnv (samplePayload (str "2022-05-01T10:00:00Z")) sampleInfo)
        ⟨some (str "sha256=ab0a"), some sampleBody⟩ sampleWorld).1 = .responded 200 := by
  have hvalid : X = signatureString env B →
      handler env ⟨some X, some B⟩ w
        = if (env.unmarshalPayload B).Action ≠ str "published" then (.responded 200, w)
          else publish env (env.unmarshalPayload B) w := by
    intro h
    subst h
    exact handler_of_valid_signature env B w
  have hupper : hexUpper (env.hmacSHA256 env.WEBHOOK_SECRET B)
        ≠ hexLower (env.hmacSHA256 env.WEBHOOK_SECRET B) →
      handler env
        ⟨some (str "sha256=" ++ hexUpper (env.hmacSHA256 env.WEBHOOK_SECRET B)), some B⟩ w
        = (.responded 401, w) := by
    intro h
    apply handler_of_invalid_signature
    intro heq
    exact h (List.append_cancel_left heq)
  have hdrop : (signatureString env B).drop 7
      = hexLower (env.hmacSHA256 env.WEBHOOK_SECRET B) := by
    have h7 : (str "sha256=").length = 7 := by decide
    unfold signatureString
    rw [← h7, List.drop_left]
  refine ⟨?_, fun h => handler_of_invalid_signature env B X w h, hvalid, ?_, hupper, ?_, ?_, ?_,
    ?_, ?_, ?_, by decide, by decide, by decide, by decide, by decide⟩
  · constructor
    · intro h hX
      have hh := hvalid hX
      unfold serve at h
      rw [hh] at h
      by_cases hact : (env.unmarshalPayload B).Action ≠ str "published"
      · simp [hact, responseStatus] at h
      · simp only [hact, if_false] at h
        rcases publish_status env (env.unmarshalPayload B) w with h2 | h5
        · rw [h2] at h
          exact absurd h (by decide)
        · rw [h5] at h
          exact absurd h (by decide)
    · intro h
      unfold serve
      rw [handler_of_invalid_signature env B X w h]
      rfl
  · exact handler_of_invalid_signature env B [] w (Ne.symm (sha256_prefix_ne_nil _))
  · rintro ⟨b, hb, hletter⟩
    apply hupper
    intro heq
    have := hexUpper_eq_hexLower_digits _ heq b hb
    omega
  · unfold signatureString
    rw [← hexLower_eq_table]
  · have h7 : (str "sha256=").length = 7 := by decide
    unfold signatureString
    rw [List.length_append, hexLower_length, h7]
  · rw [hdrop]
    exact hexLower_alphabet _
  · have h7 : (str "sha256=").length = 7 := by decide
    unfold signatureString
    rw [← h7, List.take_left]
  · rw [hdrop]
    exact hexDecode_hexLower _

/-- C6: a request with a valid signature whose decoded action is anything but
published (whatever the decoder produced, also for a body it could not decode)
is answered with 200 and the world is left exactly as it was: the catalog file
is unchanged and no asset resolution, outbound fetch, catalog read or catalog
write is recorded. -/
theorem non_published_is_noop (env : Env) (B X : GoString) (w : World)
    (hsig : X = signatureString env B)
    (hact : (env.unmarshalPayload B).Action ≠ str "published") :
    serve env ⟨some X, some B⟩ w = (200, w)
    ∧ handler env ⟨some X, some B⟩ w = (.responded 200, w)
    ∧ (serve env ⟨some X, some B⟩ w).2.catalog = w.catalog
    ∧ (serve env ⟨some X, some B⟩ w).2.trace = w.trace := by
  subst hsig
  have h : handler env ⟨some (signatureString env B), some B⟩ w = (.responded 200, w) := by
    rw [handler_of_valid_signature, if_pos hact]
  refine ⟨?_, h, ?_, ?_⟩ <;> simp [serve, h, responseStatus]

theorem non_published_is_noop_witness :
    serve (sampleEnv ⟨str "deleted", (samplePayload (str "2022-05-01T10:00:00Z")).Release⟩
        sampleInfo) ⟨some (str "sha256=ab0a"), some sampleBody⟩ sampleWorld = (200, sampleWorld)
    ∧ handler (sampleEnv ⟨str "deleted", (samplePayload (str "2022-05-01T10:00:00Z")).Release⟩
        sampleInfo) ⟨some (str "sha256=ab0a"), some sampleBody⟩ sampleWorld
        = (.responded 200, sampleWorld)
    ∧ (serve (sampleEnv ⟨str "deleted", (samplePayload (str "2022-05-01T10:00:00Z")).Release⟩
        sampleInfo) ⟨some (str "sha256=ab0a"), some sampleBody⟩ sampleWorld).2.catalog
        = sampleWorld.catalog
    ∧ (serve (sampleEnv ⟨str "deleted", (samplePayload (str "2022-05-01T10:00:00Z")).Release⟩
        sampleInfo) ⟨some (str "sha256=ab0a"), some sampleBody⟩ sampleWorld).2.trace
        = sampleWorld.trace :=
  non_published_is_noop
    (sampleEnv ⟨str "deleted", (samplePayload (str "2022-05-01T10:00:00Z")).Release⟩ sampleInfo)
    sampleBody (str "sha256=ab0a") sampleWorld (by decide) (by decide)

/-- C9 (as the code has it): a request without the signature header is never
answered with 400. The header binding succeeds with the empty signature, the
signature check then fails, and a request whose body can be read is answered
with 401; in every case the world, and so the catalog file, is left unchanged. -/
theorem missing_signature_header_is_401 (env : Env) (req : Request) (w : World)
    (body : GoString) :
    serve env ⟨none, some body⟩ w = (401, w)
    ∧ (req.signatureHeader = none → (serve env req w).1 ≠ 400 ∧ (serve env req w).2 = w) := by
  have h1 : handler env ⟨none, some body⟩ w = (.responded 401, w) := by
    simp [handler, ShouldBindHeader, signatureBindingRequired, signatureString, str]
  refine ⟨by simp [serve, h1, responseStatus], ?_⟩
  intro hnone
  rcases req with ⟨sig, b⟩
  simp only at hnone
  subst hnone
  cases b with
  | none => simp [serve, handler, ShouldBindHeader, signatureBindingRequired, responseStatus]
  | some b =>
    simp [serve, handler, ShouldBindHeader, signatureBindingRequired, signatureString, str,
      responseStatus]

/-- C9 fails as stated: the sample request without a signature header is
answered with 401, not 400 (the catalog file is unchanged). -/
theorem missing_signature_header_not_400 :
    (serve (sampleEnv (samplePayload (str "2022-05-01T10:00:00Z")) sampleInfo)
        ⟨none, some sampleBody⟩ sampleWorld).1 = 401
    ∧ (serve (sampleEnv (samplePayload (str "2022-05-01T10:00:00Z")) sampleInfo)
        ⟨none, some sampleBody⟩ sampleWorld).1 ≠ 400
    ∧ (serve (sampleEnv (samplePayload (str "2022-05-01T10:00:00Z")) sampleInfo)
        ⟨none, some sampleBody⟩ sampleWorld).2.catalog = sampleWorld.catalog := by
  decide

/-- C7: when the signature is valid and the action is published, but
enmity.ipa is not among the assets, or enmity.dev.ipa is not, or version
extraction from the stable package does not yield a version, or the catalog
file cannot be read, the request is answered with 500 and the catalog file is
exactly as it was. -/
theorem downstream_failure_is_500 (env : Env) (B X : GoString) (w : World)
    (hsig : X = signatureString env B)
    (hact : (env.unmarshalPayload B).Action = str "published")
    (hfail :
      (∀ a ∈ (env.unmarshalPayload B).Release.Assets, a.Name ≠ str "enmity.ipa")
      ∨ (∀ a ∈ (env.unmarshalPayload B).Release.Assets, a.Name ≠ str "enmity.dev.ipa")
      ∨ (∃ stable,
          findAsset (env.unmarshalPayload B).Release.Assets (str "enmity.ipa") = .ok stable
          ∧ ∀ version, (getVersionFromPlist env stable.DownloadUrl w).1 ≠ .ok version)
      ∨ w.catalog = none) :
    (serve env ⟨some X, some B⟩ w).1 = 500
    ∧ (serve env ⟨some X, some B⟩ w).2.catalog = w.catalog := by
  subst hsig
  have hh : handler env ⟨some (signatureString env B), some B⟩ w
      = publish env (env.unmarshalPayload B) w := by
    rw [handler_of_valid_signature]
    simp [hact]
  unfold serve
  rw [hh]
  by_contra hnot
  obtain ⟨stable, dev, version, content, hs, hd, hv, _, hc⟩ :=
    publish_not_500_inv env (env.unmarshalPayload B) w hnot
  rcases hfail with h1 | h2 | ⟨stable', hs', hv'⟩ | h4
  · have := (findAsset_error_iff _ _).mpr h1
    rw [hs] at this
    exact absurd this (by simp)
  · have := (findAsset_error_iff _ _).mpr h2
    rw [hd] at this
    exact absurd this (by simp)
  · rw [hs] at hs'
    injection hs' with hs'
    subst hs'
    exact hv' version hv
  · rw [hc] at h4
    exact absurd h4 (by simp)

theorem downstream_failure_is_500_witness :
    (serve (sampleEnv ⟨str "published", ⟨str "notes", str "2022-05-01T10:00:00Z",
        [⟨str "https://h/enmity.ipa", str "enmity.ipa", 100⟩]⟩⟩ sampleInfo)
      ⟨some (str "sha256=ab0a"), some sampleBody⟩ sampleWorld).1 = 500
    ∧ (serve (sampleEnv ⟨str "published", ⟨str "notes", str "2022-05-01T10:00:00Z",
        [⟨str "https://h/enmity.ipa", str "enmity.ipa", 100⟩]⟩⟩ sampleInfo)
      ⟨some (str "sha256=ab0a"), some sampleBody⟩ sampleWorld).2.catalog = sampleWorld.catalog :=
  downstream_failure_is_500
    (sampleEnv ⟨str "published", ⟨str "notes", str "2022-05-01T10:00:00Z",
        [⟨str "https://h/enmity.ipa", str "enmity.ipa", 100⟩]⟩⟩ sampleInfo)
    sampleBody (str "sha256=ab0a") sampleWorld (by decide) (by decide)
    (Or.inr (Or.inl (by decide)))

/-- C5 (as the code has it): for a request with a correct signature, action
published, enmity.ipa resolving to the asset stable and enmity.dev.ipa to dev,
a package whose Info.plist yields version v, a created_at of at least 10
characters, and a catalog file that can be read, encoded and written, the
answer is 200 and the catalog file becomes the encoding of the previous
document with the stable entry and the dev entry put in front of the previous
apps. Both entries have version v and the first 10 characters of created_at as
version date; download URL and size are those of stable and dev respectively.
The version is fetched once, from the stable asset. -/
theorem publish_end_to_end (env : Env) (B X : GoString) (w : World)
    (stable dev : asset) (v content : GoString)
    (hsig : X = signatureString env B)
    (hact : (env.unmarshalPayload B).Action = str "published")
    (hstable : findAsset (env.unmarshalPayload B).Release.Assets (str "enmity.ipa") = .ok stable)
    (hdev : findAsset (env.unmarshalPayload B).Release.Assets (str "enmity.dev.ipa") = .ok dev)
    (hver : (getVersionFromPlist env stable.DownloadUrl w).1 = .ok v)
    (hlen : 10 ≤ (env.unmarshalPayload B).Release.CreatedAt.length)
    (hread : w.catalog = some content)
    (henc : ∀ d, env.marshalIndent d ≠ none)
    (hwrite : w.writeFault = none) :
    ∃ stableApp devApp data finalURL,
      createAltstoreApp stable (env.unmarshalPayload B).Release v = some stableApp
      ∧ createAltstoreApp dev (env.unmarshalPayload B).Release v = some devApp
      ∧ (serve env ⟨some X, some B⟩ w).1 = 200
      ∧ (serve env ⟨some X, some B⟩ w).2.catalog = some data
      ∧ env.marshalIndent (mergeApps (env.unmarshalAltstore content) [stableApp, devApp])
          = some data
      ∧ (mergeApps (env.unmarshalAltstore content) [stableApp, devApp]).Apps
          = [stableApp, devApp] ++ (env.unmarshalAltstore content).Apps
      ∧ stableApp.Version = v ∧ devApp.Version = v
      ∧ stableApp.VersionDate = (env.unmarshalPayload B).Release.CreatedAt.take 10
      ∧ devApp.VersionDate = (env.unmarshalPayload B).Release.CreatedAt.take 10
      ∧ stableApp.DownloadUrl = stable.DownloadUrl ∧ stableApp.Size = stable.Size
      ∧ devApp.DownloadUrl = dev.DownloadUrl ∧ devApp.Size = dev.Size
      ∧ stable.Name = str "enmity.ipa" ∧ dev.Name = str "enmity.dev.ipa"
      ∧ (serve env ⟨some X, some B⟩ w).2.trace
          = w.trace ++
            [ Effect.resolveAsset (str "enmity.ipa"), Effect.resolveAsset (str "enmity.dev.ipa"),
              Effect.outboundFetch stable.DownloadUrl, Effect.outboundFetch finalURL,
              Effect.catalogRead, Effect.catalogWrite data ] := by
  subst hsig
  obtain ⟨cat, fault, tr⟩ := w
  simp only at hread hwrite
  subst hread
  subst hwrite
  have hh : handler env ⟨some (signatureString env B), some B⟩ ⟨some content, none, tr⟩
      = publish env (env.unmarshalPayload B) ⟨some content, none, tr⟩ := by
    rw [handler_of_valid_signature]
    simp [hact]
  have hnot : ¬ (env.unmarshalPayload B).Release.CreatedAt.length < 10 := Nat.not_lt.mpr hlen
  have hver2 := hver
  rw [getVersionFromPlist_fst env stable.DownloadUrl ⟨some content, none, tr⟩
    ⟨some content, none, tr ++ [Effect.resolveAsset (str "enmity.ipa")]
                ++ [Effect.resolveAsset (str "enmity.dev.ipa")]⟩] at hver2
  obtain ⟨finalURL, hgv⟩ := getVersionFromPlist_ok_world env stable.DownloadUrl _ v hver2
  simp only [List.append_assoc, List.cons_append, List.nil_append] at hgv
  obtain ⟨data, hdata⟩ := Option.ne_none_iff_exists'.mp
    (henc (mergeApps (env.unmarshalAltstore content)
      [ { Name := str "Enmity"
          BundleIdentifier := str "com.hammerandchisel.discord"
          DeveloperName := str "Enmity Team"
          Subtitle := str "The power of addons, all in your hand."
          Version := v
          VersionDate := (env.unmarshalPayload B).Release.CreatedAt.take 10
          VersionDescription := (env.unmarshalPayload B).Release.Body
          DownloadUrl := stable.DownloadUrl
          LocalizedDescription := str "Add plugins and themes to Discord!"
          IconURL := str "https://files.enmity.app/icon-altstore.png"
          TintColor := str "6D00FF"
          Size := stable.Size
          Beta := false },
        { Name := str "Enmity"
          BundleIdentifier := str "com.hammerandchisel.discord"
          DeveloperName := str "Enmity Team"
          Subtitle := str "The power of addons, all in your hand."
          Version := v
          VersionDate := (env.unmarshalPayload B).Release.CreatedAt.take 10
          VersionDescription := (env.unmarshalPayload B).Release.Body
          DownloadUrl := dev.DownloadUrl
          LocalizedDescription := str "Add plugins and themes to Discord!"
          IconURL := str "https://files.enmity.app/icon-altstore.png"
          TintColor := str "6D00FF"
          Size := dev.Size
          Beta := false } ]))
  have hsn : stable.Name = str "enmity.ipa" := by
    obtain ⟨_, _, _, hn, _⟩ := (findAsset_ok_split _ _ _).mp hstable
    exact hn
  have hdn : dev.Name = str "enmity.dev.ipa" := by
    obtain ⟨_, _, _, hn, _⟩ := (findAsset_ok_split _ _ _).mp hdev
    exact hn
  refine ⟨_, _, data, finalURL, by simp only [createAltstoreApp, hnot, if_false],
    by simp only [createAltstoreApp, hnot, if_false], ?_, ?_, hdata, rfl, rfl, rfl, rfl, rfl,
    rfl, rfl, rfl, rfl, hsn, hdn, ?_⟩
  all_goals
    simp only [serve, hh, publish, hstable, hdev, hgv, createAltstoreApp, hnot, if_false,
      createAltstoreRelease, hdata, writeFile, responseStatus,
      List.append_assoc, List.cons_append, List.nil_append]

theorem publish_end_to_end_witness :
    (serve (sampleEnv (samplePayload (str "2022-05-01T10:00:00Z")) sampleInfo)
        ⟨some (str "sha256=ab0a"), some sampleBody⟩ sampleWorld).1 = 200 := by
  obtain ⟨_, _, _, _, _, _, h, _⟩ :=
    publish_end_to_end (sampleEnv (samplePayload (str "2022-05-01T10:00:00Z")) sampleInfo)
      sampleBody (str "sha256=ab0a") sampleWorld
      ⟨str "https://h/enmity.ipa", str "enmity.ipa", 100⟩
      ⟨str "https://h/enmity.dev.ipa", str "enmity.dev.ipa", 200⟩
      (str "4.0.0") (str "catalog")
      (by decide) (by decide) (by decide) (by decide) (by decide) (by decide) (by decide)
      (fun d => by simp [sampleEnv]) (by decide)
  exact h

/-- C5 fails as stated. With a correct signature, action published, both
assets attached and a package yielding version 4.0.0, a created_at of fewer
than 10 characters makes the handler panic: the answer is 500 and the catalog
gains nothing. The same request with a full timestamp is answered with 500
when the catalog file cannot be read, and when it cannot be written. -/
theorem publish_not_always_200 :
    signatureString (sampleEnv (samplePayload (str "2022")) sampleInfo) sampleBody
        = str "sha256=ab0a"
    ∧ ((sampleEnv (samplePayload (str "2022")) sampleInfo).unmarshalPayload sampleBody).Action
        = str "published"
    ∧ findAsset (samplePayload (str "2022")).Release.Assets (str "enmity.ipa")
        = .ok ⟨str "https://h/enmity.ipa", str "enmity.ipa", 100⟩
    ∧ findAsset (samplePayload (str "2022")).Release.Assets (str "enmity.dev.ipa")
        = .ok ⟨str "https://h/enmity.dev.ipa", str "enmity.dev.ipa", 200⟩
    ∧ (getVersionFromPlist (sampleEnv (samplePayload (str "2022")) sampleInfo)
        (str "https://h/enmity.ipa") sampleWorld).1 = .ok (str "4.0.0")
    ∧ (handler (sampleEnv (samplePayload (str "2022")) sampleInfo)
        ⟨some (str "sha256=ab0a"), some sampleBody⟩ sampleWorld).1 = .panicked
    ∧ (serve (sampleEnv (samplePayload (str "2022")) sampleInfo)
        ⟨some (str "sha256=ab0a"), some sampleBody⟩ sampleWorld).1 = 500
    ∧ (serve (sampleEnv (samplePayload (str "2022")) sampleInfo)
        ⟨some (str "sha256=ab0a"), some sampleBody⟩ sampleWorld).2.catalog = sampleWorld.catalog
    ∧ (serve (sampleEnv (samplePayload (str "2022-05-01T10:00:00Z")) sampleInfo)
        ⟨some (str "sha256=ab0a"), some sampleBody⟩ ⟨none, none, []⟩).1 = 500
    ∧ (serve (sampleEnv (samplePayload (str "2022-05-01T10:00:00Z")) sampleInfo)
        ⟨some (str "sha256=ab0a"), some sampleBody⟩
        ⟨some (str "catalog"), some (some []), []⟩).1 = 500 := by
  decide

/-- C8 at the failing inputs: over an archive whose Info.plist decodes to a
dictionary without CFBundleShortVersionString, or with a value there that is
not a string, getVersionFromPlist panics; it returns neither a version nor an
error to its caller. A dictionary holding a string there gives the version. -/
theorem getVersionFromPlist_panics_on_missing_key :
    versionFromArchive (sampleEnv (samplePayload []) sampleInfoNoKey)
        [⟨str "Payload/Discord.app/Info.plist", some (str "bplist")⟩] = .panic
    ∧ versionFromArchive (sampleEnv (samplePayload []) sampleInfoNotString)
        [⟨str "Payload/Discord.app/Info.plist", some (str "bplist")⟩] = .panic
    ∧ (getVersionFromPlist (sampleEnv (samplePayload []) sampleInfoNoKey)
        (str "https://h/enmity.ipa") sampleWorld).1 = .panic
    ∧ (getVersionFromPlist (sampleEnv (samplePayload []) sampleInfoNotString)
        (str "https://h/enmity.ipa") sampleWorld).1 = .panic
    ∧ versionFromArchive (sampleEnv (samplePayload []) sampleInfo)
        [⟨str "Payload/Discord.app/Info.plist", some (str "bplist")⟩] = .ok (str "4.0.0")
    ∧ versionFromArchive (sampleEnv (samplePayload []) sampleInfo)
        [⟨str "Payload/Other.app/Info.plist", some (str "bplist")⟩]
        = .err "plist file missing from archive" := by
  decide

end Altstore
